import Mathlib

/-!
Verification of the batch-download utility (`auto_download_image.py`).

The program is a small GUI tool: `google_drive_bulk_download` validates a
links-file path and an output directory, reads and trims the URL list, and
loops over the URLs calling an external download routine, logging per-item
outcomes; `fix_google_drive_url` rewrites Google-Drive "view" URLs to the
direct-download form.

We embed the worker as a pure function from an environment (filesystem facts
and the outcome of each external download call) to a trace of events
(directory changes, file checks, log entries, download attempts), and the
normalizer as a pure string function built from a Python-faithful
left-to-right replace-all on character lists.
-/

namespace DownloadUrl

/-- The ASCII whitespace characters recognised by Python's `str.strip()`
(the URLs in scope are ASCII; the Unicode extras never arise). -/
def isPyWs (c : Char) : Bool :=
  c = ' ' || c = '\t' || c = '\n' || c = '\r' || c = '\x0b' || c = '\x0c'

/-- Python `line.strip()` on a character list: drop leading and trailing
whitespace. -/
def pyStripL (l : List Char) : List Char :=
  ((l.dropWhile isPyWs).reverse.dropWhile isPyWs).reverse

/-- Python `line.strip()`: drop leading and trailing whitespace. -/
def pyStrip (s : String) : String :=
  String.mk (pyStripL s.data)

/-- Split a character list at newline characters (the line structure seen by
`file.readlines()`; the terminators it keeps are stripped right after, so
they are dropped here). -/
def splitOnNl : List Char → List (List Char)
  | [] => [[]]
  | c :: cs =>
    if c = '\n' then [] :: splitOnNl cs
    else
      match splitOnNl cs with
      | [] => [[c]]
      | l :: ls => (c :: l) :: ls

/-- Python `pat in s`: does `pat` occur as a contiguous substring of `s`? -/
def containsSub (pat : List Char) : List Char → Bool
  | [] => pat.isEmpty
  | c :: cs => List.isPrefixOf pat (c :: cs) || containsSub pat cs

/-- `pat` occurs as a contiguous substring of `s` (the mathematical reading
of Python's `in`). -/
def OccursIn (pat s : List Char) : Prop :=
  ∃ pre post, s = pre ++ pat ++ post

/-- `s` ends with `pat`. -/
def FinalSeg (pat s : List Char) : Prop :=
  ∃ pre, s = pre ++ pat

/-- `s.endsWith`-style boolean test, by reversal. -/
def finalSegB (pat s : List Char) : Bool :=
  List.isPrefixOf pat.reverse s.reverse

/-- Python `s.replace(old, new)` for a nonempty `old`: scan left to right,
replacing each non-overlapping occurrence, with explicit fuel (one unit per
consumed character) so the function is structurally recursive. -/
def replaceFuel (old new : List Char) : Nat → List Char → List Char
  | 0, s => s
  | _ + 1, [] => []
  | fuel + 1, c :: cs =>
    if List.isPrefixOf old (c :: cs) then
      new ++ replaceFuel old new fuel (List.drop (old.length - 1) cs)
    else
      c :: replaceFuel old new fuel cs

/-- Python `s.replace(old, new)` on character lists: the fuel is the input
length, enough for the whole scan. -/
def replaceAllL (old new s : List Char) : List Char :=
  replaceFuel old new s.length s

/-- Python `s.replace(old, new)` on strings (for the nonempty patterns the
program uses). -/
def pyReplace (old new s : String) : String :=
  String.mk (replaceAllL old.data new.data s.data)

/-- Join parts with a separator: `joinWith sep [p0, p1, ..., pk]` is
`p0 ++ sep ++ p1 ++ sep ++ ... ++ pk`. -/
def joinWith (sep : List Char) : List (List Char) → List Char
  | [] => []
  | [p] => p
  | p :: q :: rest => p ++ sep ++ joinWith sep (q :: rest)

/-- The parts of a leftmost-greedy factorization of a string along
non-overlapping occurrences of `old`: no part contains an occurrence, and no
occurrence starts inside a non-final part and bleeds into the separator that
follows it (so each replaced occurrence really is the leftmost one in the
remaining input). -/
def GreedyParts (old : List Char) : List (List Char) → Prop
  | [] => False
  | [p] => ¬ OccursIn old p
  | p :: q :: rest =>
      ¬ OccursIn old (p ++ old.take (old.length - 1)) ∧ GreedyParts old (q :: rest)

/-- `t` is the result of replacing every occurrence of `old` in `s` by
`new`, scanning left to right over non-overlapping occurrences — the
specification of Python's `str.replace`. -/
def IsReplaceAll (old new s t : List Char) : Prop :=
  ∃ parts, GreedyParts old parts ∧ s = joinWith old parts ∧ t = joinWith new parts

/-- `fix_google_drive_url` from the source:
`if "drive.google.com" in url: return url.replace("/file/d/", "/uc?id=").replace("/view", "")`
else return `url` unchanged. -/
def fix_google_drive_url (url : String) : String :=
  if containsSub "drive.google.com".data url.data then
    pyReplace "/view" "" (pyReplace "/file/d/" "/uc?id=" url)
  else url

example : fix_google_drive_url "https://drive.google.com/file/d/ABC123/view"
    = "https://drive.google.com/uc?id=ABC123" := by decide

example : fix_google_drive_url "https://example.com/foo.zip"
    = "https://example.com/foo.zip" := by decide

example : fix_google_drive_url "https://wikipedia.org/wiki/drive.google.com/view"
    = "https://wikipedia.org/wiki/drive.google.com" := by decide

example : pyStrip "  https://a.b \r\n" = "https://a.b" := by decide

/-- Log levels used by `log_message` (unknown levels fall back to INFO; the
worker only ever passes these three). -/
inductive Level where
  | INFO
  | WARNING
  | ERROR
deriving DecidableEq

/-- One line appended to the log panel by `log_message`. -/
structure LogEntry where
  level : Level
  msg : String
deriving DecidableEq

/-- Outcome of one call to the external `gdown.download` routine, as
classified by the worker's `except` clauses: success, `MissingSchema`
(malformed URL), `RequestException` (network error), or any other
exception. -/
inductive DownloadOutcome where
  | success
  | missingSchema
  | requestException (err : String)
  | otherException (err : String)
deriving DecidableEq

/-- Did the download call raise (any of the three caught exception kinds)? -/
def isFailure : DownloadOutcome → Bool
  | .success => false
  | _ => true

/-- Environment of one worker run: the facts about the process and the
filesystem the code branches on, and an oracle giving the outcome of the
external download call at each 1-based loop index. -/
structure Env where
  /-- `getattr(sys, 'frozen', False)`. -/
  frozen : Bool
  /-- `sys._MEIPASS`, the frozen-executable extraction directory. -/
  meipassDir : String
  /-- `os.path.dirname(os.path.abspath(__file__))`. -/
  scriptDir : String
  /-- `Path(links_file_path).is_file()`. -/
  linksIsFile : Bool
  /-- `some e` iff `output_path.mkdir(...)` or `os.chdir(output_path)` raises
  `(OSError, PermissionError)` with message `e`. -/
  mkdirChdirError : Option String
  /-- Result of `open(links_path).readlines()`: `.error e` iff it raises
  `(IOError, UnicodeDecodeError)` with message `e`, else the file text. -/
  readResult : Except String String
  /-- Outcome of `download(url=u, quiet=False, fuzzy=True)` at loop index
  `i` with normalized URL `u`. -/
  download : Nat → String → DownloadOutcome

/-- `sys._MEIPASS` for frozen executables, else the script's directory. -/
def appPath (env : Env) : String :=
  if env.frozen then env.meipassDir else env.scriptDir

/-- Observable events of one worker run, in order. -/
inductive Event where
  /-- `os.chdir(dir)`. -/
  | chdir (dir : String)
  /-- `Path(path).is_file()` — validating the links-file path. -/
  | checkIsFile (path : String)
  /-- `Path(path).mkdir(parents=True, exist_ok=True)`. -/
  | mkdirP (path : String)
  /-- `open(path, 'r', encoding='utf-8')` and reading its lines. -/
  | readFile (path : String)
  /-- `log_message` appending one entry to the log panel. -/
  | logged (entry : LogEntry)
  /-- One call `download(url=u, quiet=False, fuzzy=True)`. -/
  | downloadAttempt (url : String)
deriving DecidableEq

/-- `[line.strip() for line in file.readlines() if line.strip()]`:
split the file text into lines, strip each, drop the blank ones,
preserving order. -/
def cleanLines (contents : String) : List String :=
  ((splitOnNl contents.data).map (fun l => String.mk (pyStripL l))).filter
    (fun l => l ≠ "")

/-- The URL passed to `download` for the raw line `u`:
`fix_google_drive_url(url_raw.strip())`. -/
def loopUrl (u : String) : String :=
  fix_google_drive_url (pyStrip u)

/-- The log entry the `try`/`except` block around `download` appends for the
outcome `o` of downloading `download_url`: success logs INFO, and each of the
three caught exception kinds logs one ERROR. -/
def outcomeLog (o : DownloadOutcome) (download_url : String) : LogEntry :=
  match o with
  | .success => ⟨Level.INFO, "Download completed successfully"⟩
  | .missingSchema => ⟨Level.ERROR, "Invalid URL format: '" ++ download_url ++ "'"⟩
  | .requestException e =>
      ⟨Level.ERROR, "Network error while downloading '" ++ download_url ++ "': " ++ e⟩
  | .otherException e =>
      ⟨Level.ERROR, "Unexpected error while downloading '" ++ download_url ++ "': " ++ e⟩

/-- The `for i, url_raw in enumerate(file_lines, start=1)` loop body,
producing the events of the remaining iterations: log the per-item
"Downloading" line, attempt the download, and log the item's outcome;
every exception is caught and the loop continues. -/
def downloadLoop (env : Env) (n : Nat) : Nat → List String → List Event
  | _, [] => []
  | i, url_raw :: rest =>
    let download_url := loopUrl url_raw
    Event.logged ⟨Level.INFO,
        "Downloading [" ++ toString i ++ "/" ++ toString n ++ "]: " ++ download_url⟩ ::
    Event.downloadAttempt download_url ::
    Event.logged (outcomeLog (env.download i download_url) download_url) ::
    downloadLoop env n (i + 1) rest

/-- `google_drive_bulk_download(links_file_path, output_directory_path)` as a
trace of events: chdir to the application path, validate the links file,
create and enter the output directory, read and clean the URL list, then run
the download loop between the "Started" and "Finished" log lines; each
precondition failure logs one entry and returns. -/
def google_drive_bulk_download (env : Env)
    (links_file_path output_directory_path : String) : List Event :=
  Event.chdir (appPath env) ::
  Event.checkIsFile links_file_path ::
  if env.linksIsFile = false then
    [Event.logged ⟨Level.ERROR,
      "The file '" ++ links_file_path ++ "' does not exist!"⟩]
  else
    Event.mkdirP output_directory_path ::
    match env.mkdirChdirError with
    | some e =>
        [Event.logged ⟨Level.ERROR,
          "Failed to set output directory '" ++ output_directory_path ++ "': " ++ e⟩]
    | none =>
        Event.chdir output_directory_path ::
        Event.readFile links_file_path ::
        match env.readResult with
        | .error e =>
            [Event.logged ⟨Level.ERROR,
              "Failed to read file '" ++ links_file_path ++ "': " ++ e⟩]
        | .ok contents =>
            let file_lines := cleanLines contents
            if file_lines = [] then
              [Event.logged ⟨Level.WARNING, "No valid URLs found in the file!"⟩]
            else
              Event.logged ⟨Level.INFO, "Started downloading process"⟩ ::
              (downloadLoop env file_lines.length 1 file_lines ++
                [Event.logged ⟨Level.INFO, "Finished downloading process"⟩])

/-- The URLs passed to the external download routine, in order. -/
def attempts (tr : List Event) : List String :=
  tr.filterMap (fun e => match e with
    | Event.downloadAttempt u => some u
    | _ => none)

/-- The log entries of a trace, in order. -/
def logsOf (tr : List Event) : List LogEntry :=
  tr.filterMap (fun e => match e with
    | Event.logged entry => some entry
    | _ => none)

/-- Pair each element with its index, counting from `i` —
Python's `enumerate(l, start=i)`. -/
def withIndexFrom (i : Nat) : List String → List (Nat × String)
  | [] => []
  | a :: as => (i, a) :: withIndexFrom (i + 1) as

/-- An environment whose validation steps all succeed, with links-file text
`c` and download oracle `dl`; used by the concrete witnesses. -/
def envOkOf (c : String) (dl : Nat → String → DownloadOutcome) : Env :=
  { frozen := false
    meipassDir := "/tmp/meipass"
    scriptDir := "/home/app"
    linksIsFile := true
    mkdirChdirError := none
    readResult := .ok c
    download := dl }

/-- Links-file text used by witnesses: two URLs around a blank line. -/
def wContents : String :=
  "https://drive.google.com/file/d/ABC123/view\n\n  https://example.com/foo.zip  \n"

/-- Download oracle for the C4 witness: the first item's URL is malformed,
every later item succeeds. -/
def wDl : Nat → String → DownloadOutcome := fun i _ =>
  if i = 1 then DownloadOutcome.missingSchema else DownloadOutcome.success

/-! ### Basic lemmas about the substring predicates -/

/-- `List.isPrefixOf` decides the leading-segment relation (character
lists). -/
lemma prefixCheckIff : ∀ l₁ l₂ : List Char,
    List.isPrefixOf l₁ l₂ = true ↔ ∃ t, l₁ ++ t = l₂ := by
  intro l₁
  induction l₁ with
  | nil =>
    intro l₂
    constructor
    · intro _; exact ⟨l₂, rfl⟩
    · intro _; cases l₂ <;> rfl
  | cons a as ih =>
    intro l₂
    cases l₂ with
    | nil =>
      constructor
      · intro h; exact absurd h (by simp [List.isPrefixOf])
      · rintro ⟨t, ht⟩; exact absurd ht (by simp)
    | cons b bs =>
      show (a == b && List.isPrefixOf as bs) = true ↔ _
      rw [Bool.and_eq_true, beq_iff_eq, ih bs]
      constructor
      · rintro ⟨rfl, t, rfl⟩; exact ⟨t, rfl⟩
      · rintro ⟨t, ht⟩
        injection ht with hb hrest
        exact ⟨hb, t, hrest⟩

lemma occursIn_cons {pat : List Char} {c : Char} {cs : List Char} :
    OccursIn pat (c :: cs) ↔ (∃ t, pat ++ t = c :: cs) ∨ OccursIn pat cs := by
  constructor
  · rintro ⟨pre, post, h⟩
    cases pre with
    | nil => exact Or.inl ⟨post, by simpa using h.symm⟩
    | cons b pre' =>
      rw [List.cons_append] at h
      injection h with hb ht
      exact Or.inr ⟨pre', post, ht⟩
  · rintro (⟨t, ht⟩ | ⟨pre, post, h⟩)
    · exact ⟨[], t, by simpa using ht.symm⟩
    · exact ⟨c :: pre, post, by simp [h]⟩

lemma containsSub_iff (pat s : List Char) :
    containsSub pat s = true ↔ OccursIn pat s := by
  induction s with
  | nil =>
    simp only [containsSub, List.isEmpty_iff]
    constructor
    · rintro rfl; exact ⟨[], [], rfl⟩
    · rintro ⟨pre, post, h⟩
      rcases List.append_eq_nil.mp h.symm with ⟨h1, h2⟩
      exact (List.append_eq_nil.mp h1).2
  | cons c cs ih =>
    simp only [containsSub, Bool.or_eq_true, prefixCheckIff, ih, occursIn_cons]

instance (pat s : List Char) : Decidable (OccursIn pat s) :=
  decidable_of_iff (containsSub pat s = true) (containsSub_iff pat s)

lemma finalSegB_iff (pat s : List Char) :
    finalSegB pat s = true ↔ FinalSeg pat s := by
  unfold finalSegB FinalSeg
  rw [prefixCheckIff]
  constructor
  · rintro ⟨t, ht⟩
    refine ⟨t.reverse, ?_⟩
    have := congrArg List.reverse ht
    simpa using this.symm
  · rintro ⟨pre, rfl⟩
    exact ⟨pre.reverse, by simp⟩

instance (pat s : List Char) : Decidable (FinalSeg pat s) :=
  decidable_of_iff (finalSegB pat s = true) (finalSegB_iff pat s)

/-! ### Lemmas about the run trace -/

lemma attempts_append (a b : List Event) :
    attempts (a ++ b) = attempts a ++ attempts b := by
  simp [attempts]

lemma logsOf_append (a b : List Event) :
    logsOf (a ++ b) = logsOf a ++ logsOf b := by
  simp [logsOf]

lemma attempts_downloadLoop (env : Env) (n : Nat) :
    ∀ i l, attempts (downloadLoop env n i l) = l.map loopUrl := by
  intro i l
  induction l generalizing i with
  | nil => rfl
  | cons a as ih =>
    have ih' := ih (i + 1)
    simp only [attempts] at ih' ⊢
    simp only [downloadLoop, List.filterMap_cons]
    simp [ih']

/-- Under the preconditions that reach the loop, the whole trace in closed
form. -/
lemma run_reaches_loop (env : Env) (lf od c : String)
    (h1 : env.linksIsFile = true) (h2 : env.mkdirChdirError = none)
    (h3 : env.readResult = .ok c) (h4 : cleanLines c ≠ []) :
    google_drive_bulk_download env lf od =
      Event.chdir (appPath env) ::
      Event.checkIsFile lf ::
      Event.mkdirP od ::
      Event.chdir od ::
      Event.readFile lf ::
      Event.logged ⟨Level.INFO, "Started downloading process"⟩ ::
      (downloadLoop env (cleanLines c).length 1 (cleanLines c) ++
        [Event.logged ⟨Level.INFO, "Finished downloading process"⟩]) := by
  simp only [google_drive_bulk_download, h1, h2, h3, h4, Bool.true_eq_false,
    if_false, if_neg h4]

/-- The level test of `outcomeLog` is exactly the failure test: success logs
INFO, the three caught exceptions log ERROR. -/
lemma outcomeLog_level (o : DownloadOutcome) (u : String) :
    decide ((outcomeLog o u).level = Level.ERROR) = isFailure o := by
  cases o <;> rfl

lemma head_ne {x y : String} (h : x.data.head? ≠ y.data.head?) : x ≠ y :=
  fun he => h (by rw [he])

lemma downloading_ne_finished (r : String) :
    "Downloading [" ++ r ≠ "Finished downloading process" := by
  apply head_ne
  have h1 : ("Downloading [" ++ r).data.head? = some 'D' := rfl
  rw [h1]
  decide

lemma outcomeLog_ne_finished (o : DownloadOutcome) (u : String) :
    outcomeLog o u ≠ LogEntry.mk Level.INFO "Finished downloading process" := by
  cases o <;> simp [outcomeLog]

lemma finished_not_mem_loop (env : Env) (n : Nat) :
    ∀ i l, LogEntry.mk Level.INFO "Finished downloading process" ∉
      logsOf (downloadLoop env n i l) := by
  intro i l
  induction l generalizing i with
  | nil => simp [downloadLoop, logsOf]
  | cons a as ih =>
    have ih' := ih (i + 1)
    simp only [logsOf] at ih'
    simp only [downloadLoop, logsOf, List.filterMap_cons, List.mem_cons]
    rintro (h | h | h)
    · exact downloading_ne_finished _ (congrArg LogEntry.msg h).symm
    · exact outcomeLog_ne_finished _ _ h.symm
    · exact ih' h

lemma errCount_loop (env : Env) (n : Nat) :
    ∀ i l,
      (logsOf (downloadLoop env n i l)).countP
          (fun e => decide (e.level = Level.ERROR)) =
        (withIndexFrom i l).countP
          (fun p => isFailure (env.download p.1 (loopUrl p.2))) := by
  intro i l
  induction l generalizing i with
  | nil => rfl
  | cons a as ih =>
    have ih' := ih (i + 1)
    simp only [logsOf] at ih' ⊢
    simp only [downloadLoop, List.filterMap_cons, withIndexFrom, List.countP_cons]
    simp [ih', outcomeLog_level]

lemma mem_logsOf_loop (env : Env) (n : Nat) :
    ∀ i l, ∀ p ∈ withIndexFrom i l,
      outcomeLog (env.download p.1 (loopUrl p.2)) (loopUrl p.2) ∈
        logsOf (downloadLoop env n i l) := by
  intro i l
  induction l generalizing i with
  | nil => intro p hp; simp [withIndexFrom] at hp
  | cons a as ih =>
    intro p hp
    simp only [withIndexFrom, List.mem_cons] at hp
    simp only [downloadLoop, logsOf, List.filterMap_cons, List.mem_cons]
    rcases hp with rfl | hp
    · exact Or.inr (Or.inl rfl)
    · have := ih (i + 1) p hp
      simp only [logsOf] at this
      exact Or.inr (Or.inr this)

/-- Under the preconditions that reach the loop, the attempted URLs are the
cleaned lines, normalized, in order. -/
lemma attempts_run (env : Env) (lf od c : String)
    (h1 : env.linksIsFile = true) (h2 : env.mkdirChdirError = none)
    (h3 : env.readResult = .ok c) (h4 : cleanLines c ≠ []) :
    attempts (google_drive_bulk_download env lf od) =
      (cleanLines c).map loopUrl := by
  have hrun := run_reaches_loop env lf od c h1 h2 h3 h4
  have hloop := attempts_downloadLoop env (cleanLines c).length 1 (cleanLines c)
  rw [hrun]
  simp only [attempts, List.filterMap_cons, List.filterMap_append] at hloop ⊢
  simp [hloop]

/-- Under the preconditions that reach the loop, the logged entries are the
"Started" line, the loop's entries, and the "Finished" line. -/
lemma logsOf_run (env : Env) (lf od c : String)
    (h1 : env.linksIsFile = true) (h2 : env.mkdirChdirError = none)
    (h3 : env.readResult = .ok c) (h4 : cleanLines c ≠ []) :
    logsOf (google_drive_bulk_download env lf od) =
      LogEntry.mk Level.INFO "Started downloading process" ::
      (logsOf (downloadLoop env (cleanLines c).length 1 (cleanLines c)) ++
        [LogEntry.mk Level.INFO "Finished downloading process"]) := by
  have hrun := run_reaches_loop env lf od c h1 h2 h3 h4
  rw [hrun]
  simp [logsOf, List.filterMap_cons, List.filterMap_append]

/-! ### Correctness of the Python-style replace-all -/

lemma occursIn_length_le {pat s : List Char} (h : OccursIn pat s) :
    pat.length ≤ s.length := by
  rcases h with ⟨pre, post, rfl⟩
  simp only [List.length_append]
  omega

lemma take_drop_glue (k : Nat) (l j : List Char) :
    l.take k ++ (l.drop k ++ j) = l ++ j := by
  rw [← List.append_assoc, List.take_append_drop]

/-- `replaceFuel` does not depend on the fuel once it covers the input
length. -/
lemma replaceFuel_stable (old new : List Char) :
    ∀ f₁ f₂ s, s.length ≤ f₁ → s.length ≤ f₂ →
      replaceFuel old new f₁ s = replaceFuel old new f₂ s := by
  intro f₁
  induction f₁ with
  | zero =>
    intro f₂ s hs _
    have h0 : s = [] := List.length_eq_zero.mp (Nat.le_zero.mp hs)
    subst h0
    cases f₂ <;> rfl
  | succ f ih =>
    intro f₂ s hs₁ hs₂
    cases s with
    | nil => cases f₂ <;> rfl
    | cons c cs =>
      cases f₂ with
      | zero => simp at hs₂
      | succ f₂ =>
        simp only [replaceFuel]
        by_cases hp : List.isPrefixOf old (c :: cs) = true
        · rw [if_pos hp, if_pos hp]
          have hd := List.length_drop (old.length - 1) cs
          simp only [List.length_cons] at hs₁ hs₂
          rw [ih f₂ _ (by omega) (by omega)]
        · rw [if_neg hp, if_neg hp]
          simp only [List.length_cons] at hs₁ hs₂
          rw [ih f₂ cs (by omega) (by omega)]

lemma replaceAllL_cons_pos (old new : List Char) (c : Char) (cs : List Char)
    (hp : List.isPrefixOf old (c :: cs) = true) :
    replaceAllL old new (c :: cs) =
      new ++ replaceAllL old new (List.drop (old.length - 1) cs) := by
  unfold replaceAllL
  simp only [List.length_cons, replaceFuel, if_pos hp]
  congr 1
  apply replaceFuel_stable
  · have := List.length_drop (old.length - 1) cs; omega
  · exact le_rfl

lemma replaceAllL_cons_neg (old new : List Char) (c : Char) (cs : List Char)
    (hp : ¬ List.isPrefixOf old (c :: cs) = true) :
    replaceAllL old new (c :: cs) = c :: replaceAllL old new cs := by
  unfold replaceAllL
  simp only [List.length_cons, replaceFuel, if_neg hp]

lemma isReplaceAll_nil (old new : List Char) (hold : old ≠ []) :
    IsReplaceAll old new [] (replaceAllL old new []) := by
  refine ⟨[[]], ?_, rfl, rfl⟩
  show ¬ OccursIn old []
  intro h
  exact hold (List.length_eq_zero.mp (Nat.le_zero.mp (occursIn_length_le h)))

/-- `replaceAllL` (hence Python's `s.replace(old, new)` for nonempty `old`)
replaces every occurrence of `old`, scanning left to right over
non-overlapping occurrences. -/
theorem replaceAllL_spec (old new : List Char) (hold : old ≠ []) :
    ∀ s, IsReplaceAll old new s (replaceAllL old new s) := by
  have key : ∀ n, ∀ s : List Char, s.length ≤ n →
      IsReplaceAll old new s (replaceAllL old new s) := by
    intro n
    induction n with
    | zero =>
      intro s hs
      have h0 : s = [] := List.length_eq_zero.mp (Nat.le_zero.mp hs)
      subst h0
      exact isReplaceAll_nil old new hold
    | succ n ih =>
      intro s hs
      cases s with
      | nil => exact isReplaceAll_nil old new hold
      | cons c cs =>
        simp only [List.length_cons] at hs
        by_cases hp : List.isPrefixOf old (c :: cs) = true
        · obtain ⟨t0, ht0⟩ := (prefixCheckIff old (c :: cs)).mp hp
          have hlenold : 1 ≤ old.length := by
            cases old with
            | nil => exact absurd rfl hold
            | cons _ _ => simp
          have htdrop : t0 = List.drop (old.length - 1) cs := by
            have h1 : List.drop old.length (old ++ t0) = t0 := List.drop_left old t0
            rw [ht0] at h1
            have h2 : List.drop old.length (c :: cs) =
                List.drop (old.length - 1) cs := by
              have he : old.length = (old.length - 1) + 1 := by omega
              rw [he, List.drop_succ_cons]
              simp
            rw [h2] at h1
            exact h1.symm
          have hlen : (List.drop (old.length - 1) cs).length ≤ n := by
            have := List.length_drop (old.length - 1) cs
            omega
          obtain ⟨parts, hg, hsj, htj⟩ := ih (List.drop (old.length - 1) cs) hlen
          cases parts with
          | nil => exact (hg : False).elim
          | cons p ps =>
            refine ⟨[] :: p :: ps, ?_, ?_, ?_⟩
            · show ¬ OccursIn old ([] ++ old.take (old.length - 1)) ∧
                GreedyParts old (p :: ps)
              refine ⟨?_, hg⟩
              intro h
              have hle := occursIn_length_le h
              simp [List.length_take] at hle
              omega
            · show c :: cs = [] ++ old ++ joinWith old (p :: ps)
              rw [← hsj, ← htdrop, List.nil_append, ht0]
            · show replaceAllL old new (c :: cs) = [] ++ new ++ joinWith new (p :: ps)
              rw [replaceAllL_cons_pos old new c cs hp, htj, List.nil_append]
        · have hlen : cs.length ≤ n := by omega
          obtain ⟨parts, hg, hsj, htj⟩ := ih cs hlen
          cases parts with
          | nil => exact (hg : False).elim
          | cons p ps =>
            cases ps with
            | nil =>
              have hgp : ¬ OccursIn old p := hg
              have hcp : cs = p := hsj
              refine ⟨[c :: p], ?_, ?_, ?_⟩
              · show ¬ OccursIn old (c :: p)
                intro h
                rcases occursIn_cons.mp h with ⟨t, htp⟩ | h'
                · apply hp
                  rw [prefixCheckIff]
                  exact ⟨t, by rw [hcp]; exact htp⟩
                · exact hgp h'
              · show c :: cs = c :: p
                rw [hcp]
              · show replaceAllL old new (c :: cs) = c :: p
                rw [replaceAllL_cons_neg old new c cs hp]
                have htp : replaceAllL old new cs = p := htj
                rw [htp]
            | cons q qs =>
              have hgand : ¬ OccursIn old (p ++ old.take (old.length - 1)) ∧
                  GreedyParts old (q :: qs) := hg
              obtain ⟨hg1, hg2⟩ := hgand
              have hsj' : cs = p ++ old ++ joinWith old (q :: qs) := hsj
              refine ⟨(c :: p) :: q :: qs, ?_, ?_, ?_⟩
              · show ¬ OccursIn old ((c :: p) ++ old.take (old.length - 1)) ∧
                  GreedyParts old (q :: qs)
                refine ⟨?_, hg2⟩
                intro h
                have h' : OccursIn old (c :: (p ++ old.take (old.length - 1))) := by
                  simpa using h
                rcases occursIn_cons.mp h' with ⟨t, htp⟩ | h''
                · apply hp
                  rw [prefixCheckIff]
                  refine ⟨t ++ (List.drop (old.length - 1) old ++
                    joinWith old (q :: qs)), ?_⟩
                  have e1 := congrArg
                    (· ++ (List.drop (old.length - 1) old ++ joinWith old (q :: qs)))
                    htp
                  simp only [List.append_assoc, List.cons_append] at e1
                  rw [take_drop_glue] at e1
                  rw [hsj']
                  simp only [List.append_assoc]
                  exact e1
                · exact hg1 h''
              · show c :: cs = (c :: p) ++ old ++ joinWith old (q :: qs)
                rw [hsj']
                simp [List.append_assoc]
              · show replaceAllL old new (c :: cs) =
                  (c :: p) ++ new ++ joinWith new (q :: qs)
                rw [replaceAllL_cons_neg old new c cs hp, htj]
                simp [joinWith, List.append_assoc]
  intro s
  exact key s.length s le_rfl

/-! ### The claims -/

/-- C1: a run that reaches the download loop attempts exactly one download
per non-blank trimmed line, in file order, whatever the individual outcomes
(the download oracle `env.download` is arbitrary). -/
theorem spec_C1 (env : Env) (lf od c : String)
    (h1 : env.linksIsFile = true) (h2 : env.mkdirChdirError = none)
    (h3 : env.readResult = .ok c) (h4 : cleanLines c ≠ []) :
    attempts (google_drive_bulk_download env lf od) =
      (cleanLines c).map loopUrl ∧
    (attempts (google_drive_bulk_download env lf od)).length =
      (cleanLines c).length := by
  have hA := attempts_run env lf od c h1 h2 h3 h4
  exact ⟨hA, by rw [hA, List.length_map]⟩

theorem spec_C1_witness :
    (envOkOf wContents (fun _ _ => DownloadOutcome.success)).linksIsFile = true ∧
    cleanLines wContents ≠ [] ∧
    attempts (google_drive_bulk_download
        (envOkOf wContents (fun _ _ => DownloadOutcome.success)) "links.txt" "out") =
      (cleanLines wContents).map loopUrl :=
  ⟨rfl, by decide,
    (spec_C1 (envOkOf wContents (fun _ _ => DownloadOutcome.success))
      "links.txt" "out" wContents rfl rfl rfl (by decide)).1⟩

/-- C3: the two concrete normalizer evaluations from the spec. -/
theorem spec_C3 :
    fix_google_drive_url "https://drive.google.com/file/d/ABC123/view" =
      "https://drive.google.com/uc?id=ABC123" ∧
    OccursIn "uc?id=ABC123".data
      (fix_google_drive_url "https://drive.google.com/file/d/ABC123/view").data ∧
    ¬ FinalSeg "/view".data
      (fix_google_drive_url "https://drive.google.com/file/d/ABC123/view").data ∧
    fix_google_drive_url "https://example.com/foo.zip" =
      "https://example.com/foo.zip" := by
  refine ⟨by decide, by decide, by decide, by decide⟩

/-- C4: in every run that reaches the loop, whatever the download outcomes:
the "Finished" message is logged exactly once; the number of ERROR entries
equals the number of failing items (so each failure is logged at ERROR
exactly once and successes log none); a malformed-URL failure logs an ERROR
naming the bad URL, and network and unexpected failures log an ERROR with
the underlying error text; and every item is still attempted, in order. -/
theorem spec_C4 (env : Env) (lf od c : String)
    (h1 : env.linksIsFile = true) (h2 : env.mkdirChdirError = none)
    (h3 : env.readResult = .ok c) (h4 : cleanLines c ≠ []) :
    (logsOf (google_drive_bulk_download env lf od)).countP
        (fun e => decide (e = LogEntry.mk Level.INFO "Finished downloading process")) = 1 ∧
    (logsOf (google_drive_bulk_download env lf od)).countP
        (fun e => decide (e.level = Level.ERROR)) =
      (withIndexFrom 1 (cleanLines c)).countP
        (fun p => isFailure (env.download p.1 (loopUrl p.2))) ∧
    (∀ p ∈ withIndexFrom 1 (cleanLines c),
      env.download p.1 (loopUrl p.2) = DownloadOutcome.missingSchema →
        LogEntry.mk Level.ERROR ("Invalid URL format: '" ++ loopUrl p.2 ++ "'") ∈
          logsOf (google_drive_bulk_download env lf od)) ∧
    (∀ p ∈ withIndexFrom 1 (cleanLines c), ∀ e,
      env.download p.1 (loopUrl p.2) = DownloadOutcome.requestException e →
        LogEntry.mk Level.ERROR
            ("Network error while downloading '" ++ loopUrl p.2 ++ "': " ++ e) ∈
          logsOf (google_drive_bulk_download env lf od)) ∧
    (∀ p ∈ withIndexFrom 1 (cleanLines c), ∀ e,
      env.download p.1 (loopUrl p.2) = DownloadOutcome.otherException e →
        LogEntry.mk Level.ERROR
            ("Unexpected error while downloading '" ++ loopUrl p.2 ++ "': " ++ e) ∈
          logsOf (google_drive_bulk_download env lf od)) ∧
    attempts (google_drive_bulk_download env lf od) = (cleanLines c).map loopUrl := by
  have hlogs := logsOf_run env lf od c h1 h2 h3 h4
  refine ⟨?_, ?_, ?_, ?_, ?_, attempts_run env lf od c h1 h2 h3 h4⟩
  · rw [hlogs]
    have h0 : (logsOf (downloadLoop env (cleanLines c).length 1 (cleanLines c))).countP
        (fun e => decide (e = LogEntry.mk Level.INFO "Finished downloading process")) = 0 := by
      rw [List.countP_eq_zero]
      intro a ha
      simp only [decide_eq_true_eq]
      rintro rfl
      exact finished_not_mem_loop env (cleanLines c).length 1 (cleanLines c) ha
    simp [List.countP_cons, List.countP_append, h0]
  · rw [hlogs]
    have hmid := errCount_loop env (cleanLines c).length 1 (cleanLines c)
    simp [List.countP_cons, List.countP_append, hmid]
  · intro p hp hd
    have hm := mem_logsOf_loop env (cleanLines c).length 1 (cleanLines c) p hp
    rw [hd] at hm
    rw [hlogs]
    exact List.mem_cons_of_mem _ (List.mem_append_left _ hm)
  · intro p hp e hd
    have hm := mem_logsOf_loop env (cleanLines c).length 1 (cleanLines c) p hp
    rw [hd] at hm
    rw [hlogs]
    exact List.mem_cons_of_mem _ (List.mem_append_left _ hm)
  · intro p hp e hd
    have hm := mem_logsOf_loop env (cleanLines c).length 1 (cleanLines c) p hp
    rw [hd] at hm
    rw [hlogs]
    exact List.mem_cons_of_mem _ (List.mem_append_left _ hm)

theorem spec_C4_witness :
    cleanLines wContents ≠ [] ∧
    (logsOf (google_drive_bulk_download (envOkOf wContents wDl) "links.txt" "out")).countP
        (fun e => decide (e = LogEntry.mk Level.INFO "Finished downloading process")) = 1 ∧
    LogEntry.mk Level.ERROR
        ("Invalid URL format: '" ++
          loopUrl "https://drive.google.com/file/d/ABC123/view" ++ "'") ∈
      logsOf (google_drive_bulk_download (envOkOf wContents wDl) "links.txt" "out") :=
  ⟨by decide,
    (spec_C4 (envOkOf wContents wDl) "links.txt" "out" wContents rfl rfl rfl (by decide)).1,
    (spec_C4 (envOkOf wContents wDl) "links.txt" "out" wContents rfl rfl rfl (by decide)).2.2.1
      (1, "https://drive.google.com/file/d/ABC123/view") (by decide) rfl⟩

/-- C5: a nonexistent links file logs exactly one entry, an ERROR naming the
path, and the run stops: no download attempt, no directory creation, no file
read. -/
theorem spec_C5 (env : Env) (lf od : String)
    (h : env.linksIsFile = false) :
    logsOf (google_drive_bulk_download env lf od) =
      [⟨Level.ERROR, "The file '" ++ lf ++ "' does not exist!"⟩] ∧
    attempts (google_drive_bulk_download env lf od) = [] ∧
    (∀ p, Event.mkdirP p ∉ google_drive_bulk_download env lf od) ∧
    (∀ p, Event.readFile p ∉ google_drive_bulk_download env lf od) := by
  simp [google_drive_bulk_download, h, logsOf, attempts, List.filterMap_cons]

theorem spec_C5_witness :
    logsOf (google_drive_bulk_download
        { envOkOf "" (fun _ _ => DownloadOutcome.success) with linksIsFile := false }
        "missing.txt" "out") =
      [⟨Level.ERROR, "The file 'missing.txt' does not exist!"⟩] ∧
    attempts (google_drive_bulk_download
        { envOkOf "" (fun _ _ => DownloadOutcome.success) with linksIsFile := false }
        "missing.txt" "out") = [] :=
  ⟨(spec_C5 _ "missing.txt" "out" rfl).1, (spec_C5 _ "missing.txt" "out" rfl).2.1⟩

/-- C6: a links file whose every line strips to blank (in particular an
empty file) logs exactly one WARNING and nothing else; no download is
attempted and neither the "Started" nor the "Finished" message appears. -/
theorem spec_C6 (env : Env) (lf od c : String)
    (h1 : env.linksIsFile = true) (h2 : env.mkdirChdirError = none)
    (h3 : env.readResult = .ok c)
    (h4 : ∀ l ∈ splitOnNl c.data, pyStripL l = []) :
    logsOf (google_drive_bulk_download env lf od) =
      [⟨Level.WARNING, "No valid URLs found in the file!"⟩] ∧
    attempts (google_drive_bulk_download env lf od) = [] ∧
    LogEntry.mk Level.INFO "Started downloading process" ∉
      logsOf (google_drive_bulk_download env lf od) ∧
    LogEntry.mk Level.INFO "Finished downloading process" ∉
      logsOf (google_drive_bulk_download env lf od) := by
  have hclean : cleanLines c = [] := by
    unfold cleanLines
    rw [List.filter_eq_nil_iff]
    intro l hl
    rcases List.mem_map.mp hl with ⟨x, hx, rfl⟩
    rw [h4 x hx]
    decide
  simp [google_drive_bulk_download, h1, h2, h3, hclean, logsOf, attempts,
    List.filterMap_cons]

theorem spec_C6_witness :
    (∀ l ∈ splitOnNl "\n  \n\t\n".data, pyStripL l = []) ∧
    logsOf (google_drive_bulk_download
        (envOkOf "\n  \n\t\n" (fun _ _ => DownloadOutcome.success)) "links.txt" "out") =
      [⟨Level.WARNING, "No valid URLs found in the file!"⟩] :=
  ⟨by decide,
    (spec_C6 (envOkOf "\n  \n\t\n" (fun _ _ => DownloadOutcome.success))
      "links.txt" "out" "\n  \n\t\n" rfl rfl rfl (by decide)).1⟩

/-- C7: if creating or entering the output directory raises, the run logs
exactly one ERROR and stops: no download attempt, and the links file is
never read. -/
theorem spec_C7 (env : Env) (lf od e : String)
    (h1 : env.linksIsFile = true) (h2 : env.mkdirChdirError = some e) :
    logsOf (google_drive_bulk_download env lf od) =
      [⟨Level.ERROR, "Failed to set output directory '" ++ od ++ "': " ++ e⟩] ∧
    attempts (google_drive_bulk_download env lf od) = [] ∧
    (∀ p, Event.readFile p ∉ google_drive_bulk_download env lf od) := by
  simp [google_drive_bulk_download, h1, h2, logsOf, attempts, List.filterMap_cons]

theorem spec_C7_witness :
    logsOf (google_drive_bulk_download
        { envOkOf "" (fun _ _ => DownloadOutcome.success) with
            mkdirChdirError := some "Permission denied" }
        "links.txt" "/proc/out") =
      [⟨Level.ERROR,
        "Failed to set output directory '/proc/out': Permission denied"⟩] ∧
    attempts (google_drive_bulk_download
        { envOkOf "" (fun _ _ => DownloadOutcome.success) with
            mkdirChdirError := some "Permission denied" }
        "links.txt" "/proc/out") = [] :=
  ⟨(spec_C7 _ "links.txt" "/proc/out" "Permission denied" rfl rfl).1,
    (spec_C7 _ "links.txt" "/proc/out" "Permission denied" rfl rfl).2.1⟩

/-- C10: the very first event of every run is `os.chdir` to the application
base path — `sys._MEIPASS` when frozen, the script's directory otherwise —
and the links-file validation is the event right after it. -/
theorem spec_C10 (env : Env) (lf od : String) :
    (google_drive_bulk_download env lf od).take 2 =
      [Event.chdir (appPath env), Event.checkIsFile lf] ∧
    (env.frozen = true → appPath env = env.meipassDir) ∧
    (env.frozen = false → appPath env = env.scriptDir) := by
  refine ⟨?_, fun h => by simp [appPath, h], fun h => by simp [appPath, h]⟩
  simp [google_drive_bulk_download]

/-- C8: the rewrite is triggered by a plain substring test — it applies
exactly when `"drive.google.com"` occurs anywhere in the string, and then it
is the two chained replacements; the two closed conjuncts show the trigger
firing on a non-Google host and on an occurrence inside the query string. -/
theorem spec_C8 :
    (∀ url : String, ¬ OccursIn "drive.google.com".data url.data →
      fix_google_drive_url url = url) ∧
    (∀ url : String, OccursIn "drive.google.com".data url.data →
      fix_google_drive_url url =
        pyReplace "/view" "" (pyReplace "/file/d/" "/uc?id=" url)) ∧
    fix_google_drive_url "https://notdrive.google.com/file/d/X/view" =
      "https://notdrive.google.com/uc?id=X" ∧
    fix_google_drive_url "https://example.com/get/file/d/Q/view?ref=drive.google.com" =
      "https://example.com/get/uc?id=Q?ref=drive.google.com" := by
  refine ⟨?_, ?_, by decide, by decide⟩
  · intro url h
    have hc : ¬ containsSub "drive.google.com".data url.data = true := by
      rw [containsSub_iff]; exact h
    simp [fix_google_drive_url, hc]
  · intro url h
    have hc : containsSub "drive.google.com".data url.data = true :=
      (containsSub_iff _ _).mpr h
    simp [fix_google_drive_url, hc]

theorem spec_C8_witness :
    ¬ OccursIn "drive.google.com".data "https://example.com/bar.zip".data ∧
    fix_google_drive_url "https://example.com/bar.zip" =
      "https://example.com/bar.zip" :=
  ⟨by decide, spec_C8.1 "https://example.com/bar.zip" (by decide)⟩

/-- C2 fails on the code at two concrete inputs. First, the host of
`"https://wikipedia.org/wiki/drive.google.com/view"` is `wikipedia.org`,
not the file-hosting host, so the claim says it passes through unchanged —
yet the code rewrites it (the trigger is a substring test). Second,
`"https://drive.google.com/viewer/file/d/A/view"` has the matching host,
so the claim predicts `"https://drive.google.com/viewer/uc?id=A"` (rewrite
`/file/d/` and strip the trailing `/view` only) — yet the code also removes
the non-trailing `/view` inside `/viewer`, mangling the result. -/
theorem spec_C2_counterexample :
    fix_google_drive_url "https://wikipedia.org/wiki/drive.google.com/view" =
      "https://wikipedia.org/wiki/drive.google.com" ∧
    fix_google_drive_url "https://wikipedia.org/wiki/drive.google.com/view" ≠
      "https://wikipedia.org/wiki/drive.google.com/view" ∧
    fix_google_drive_url "https://drive.google.com/viewer/file/d/A/view" =
      "https://drive.google.comer/uc?id=A" ∧
    fix_google_drive_url "https://drive.google.com/viewer/file/d/A/view" ≠
      "https://drive.google.com/viewer/uc?id=A" := by
  refine ⟨by decide, by decide, by decide, by decide⟩

/-- C2 as amended: the normalizer is a pure function that, for every string
containing the substring `"drive.google.com"` anywhere (no host parsing),
replaces every occurrence of `"/file/d/"` with `"/uc?id="` and removes every
occurrence of `"/view"` (not only a trailing segment), and returns every
other string unchanged. -/
theorem spec_C2_amended :
    (∀ url : String,
      fix_google_drive_url url =
        if OccursIn "drive.google.com".data url.data then
          pyReplace "/view" "" (pyReplace "/file/d/" "/uc?id=" url)
        else url) ∧
    fix_google_drive_url "https://drive.google.com/file/d/ABC/view/rest" =
      "https://drive.google.com/uc?id=ABC/rest" := by
  constructor
  · intro url
    by_cases h : OccursIn "drive.google.com".data url.data
    · rw [if_pos h]
      have hc : containsSub "drive.google.com".data url.data = true :=
        (containsSub_iff _ _).mpr h
      simp [fix_google_drive_url, hc]
    · rw [if_neg h]
      have hc : ¬ containsSub "drive.google.com".data url.data = true := by
        rw [containsSub_iff]; exact h
      simp [fix_google_drive_url, hc]
  · decide

/-- C9: for every string containing `"drive.google.com"`, the normalizer
performs a full left-to-right replace-all of `"/file/d/"` by `"/uc?id="` and
then of `"/view"` by nothing — every occurrence, not only a trailing one,
and each replacement independent of the other pattern. The closed conjuncts
show a non-trailing `/view` removed with no `/file/d/` present, `/file/d/`
replaced with no `/view` present, and multiple occurrences of each replaced. -/
theorem spec_C9 :
    (∀ url : String, OccursIn "drive.google.com".data url.data →
      IsReplaceAll "/file/d/".data "/uc?id=".data url.data
        (pyReplace "/file/d/" "/uc?id=" url).data ∧
      IsReplaceAll "/view".data [] (pyReplace "/file/d/" "/uc?id=" url).data
        (fix_google_drive_url url).data) ∧
    fix_google_drive_url "https://drive.google.com/viewer/x" =
      "https://drive.google.comer/x" ∧
    fix_google_drive_url "https://drive.google.com/file/d/A" =
      "https://drive.google.com/uc?id=A" ∧
    fix_google_drive_url "https://drive.google.com/file/d/A/file/d/B/view/view" =
      "https://drive.google.com/uc?id=A/uc?id=B" := by
  refine ⟨?_, by decide, by decide, by decide⟩
  intro url h
  have hc : containsSub "drive.google.com".data url.data = true :=
    (containsSub_iff _ _).mpr h
  have hfix : fix_google_drive_url url =
      pyReplace "/view" "" (pyReplace "/file/d/" "/uc?id=" url) := by
    simp [fix_google_drive_url, hc]
  constructor
  · exact replaceAllL_spec "/file/d/".data "/uc?id=".data (by decide) url.data
  · rw [hfix]
    exact replaceAllL_spec "/view".data [] (by decide)
      (pyReplace "/file/d/" "/uc?id=" url).data

theorem spec_C9_witness :
    OccursIn "drive.google.com".data
      "https://drive.google.com/file/d/K/view".data ∧
    IsReplaceAll "/view".data []
      (pyReplace "/file/d/" "/uc?id=" "https://drive.google.com/file/d/K/view").data
      (fix_google_drive_url "https://drive.google.com/file/d/K/view").data :=
  ⟨by decide,
    (spec_C9.1 "https://drive.google.com/file/d/K/view" (by decide)).2⟩

theorem spec_C10_witness :
    (google_drive_bulk_download
        { envOkOf "" (fun _ _ => DownloadOutcome.success) with frozen := true }
        "links.txt" "out").take 2 =
      [Event.chdir "/tmp/meipass", Event.checkIsFile "links.txt"] :=
  (spec_C10 { envOkOf "" (fun _ _ => DownloadOutcome.success) with frozen := true }
    "links.txt" "out").1

end DownloadUrl
